import Mathlib

/-!
Verification of the standalone include fixer driver
(`src/include-fixer/tool/ClangIncludeFixer.cpp`) against its
natural-language specification.

The driver is embedded shallowly: LLVM string primitives
(`StringRef::split`, `StringRef::trim`) become executable Lean functions
on `List Char`, the command-line configuration becomes a `Config` record,
and the external collaborators (stdin, the yaml database loader, the
clang tool run, the replacement applier, the rewriter) become an `Env`
record of oracles.  `includeFixerMain` then mirrors the control flow of
the C++ function of the same name, returning an observable `RunResult`
(or an assertion failure for a violated `assert`).
-/

/-- Character-class test matching the default trim set of
`llvm::StringRef::trim`, namely space, tab, newline, vertical tab,
form feed and carriage return. -/
def isLLVMSpace (c : Char) : Bool :=
  c == ' ' || c == '\t' || c == '\n' || c.toNat == 11 || c.toNat == 12 || c == '\r'

/-- Model of `llvm::StringRef::trim()`: drop the LLVM whitespace
characters from both ends of the string. -/
def llvmTrim (s : String) : String :=
  String.mk (((s.toList.dropWhile isLLVMSpace).reverse.dropWhile isLLVMSpace).reverse)

/-- Model of `llvm::StringRef::split(SmallVector, Separator)` with a
one-character separator, `MaxSplit = -1` and `KeepEmpty = true`: the
list of (possibly empty) pieces between occurrences of the separator.
Splitting the empty string yields one empty piece. -/
def splitListChar (sep : Char) : List Char → List (List Char)
  | [] => [[]]
  | c :: cs =>
    if c = sep then [] :: splitListChar sep cs
    else
      match splitListChar sep cs with
      | [] => [[c]]
      | p :: ps => (c :: p) :: ps

/-- String wrapper around `splitListChar`. -/
def splitOnChar (s : String) (sep : Char) : List String :=
  (splitListChar sep s.toList).map String.mk

/-- Helper for `splitFirst`: the characters before the first occurrence
of the separator, and the characters after it (`none` when the
separator does not occur). -/
def splitFirstList (sep : Char) : List Char → List Char × Option (List Char)
  | [] => ([], none)
  | c :: cs =>
    if c = sep then ([], some cs)
    else
      let r := splitFirstList sep cs
      (c :: r.1, r.2)

/-- Model of `llvm::StringRef::split(char)`: the pair of the text before
the first occurrence of the separator and the text after it; when the
separator does not occur the result is `(s, "")`. -/
def splitFirst (s : String) (sep : Char) : String × String :=
  let r := splitFirstList sep s.toList
  (String.mk r.1, String.mk (r.2.getD []))

/-- Modelled from the spec: the symbol-kind enumeration of
`find_all_symbols::SymbolInfo` (its header is not under `src/`); the
driver only ever constructs `Unknown`. -/
inductive SymbolKind
  | Unknown
  | Function
  | Class
  | Variable
deriving DecidableEq, Repr

/-- The SymbolRecord data entity: a symbol name mapped to one candidate
declaring header, with a kind and a line hint, as constructed by the
driver via `find_all_symbols::SymbolInfo(name, kind, path, line, {})`. -/
structure SymbolInfo where
  name : String
  kind : SymbolKind
  filePath : String
  lineNumber : Nat
deriving DecidableEq, Repr

/-- The fixed-database parsing loop of `includeFixerMain`
(`ClangIncludeFixer.cpp`, case `fixed`): split the `-input` literal on
`;`, split each piece at the first `=`, split the right-hand side on
`,`, and push one record per `(name, header)` pair, trimmed, with kind
`Unknown` and line number 1.  The accumulating `foldl` mirrors the
`push_back` loop of the source. -/
def parseFixedInput (input : String) : List SymbolInfo :=
  let semicolonSplits := splitOnChar input ';'
  semicolonSplits.foldl
    (fun symbols pair =>
      let split := splitFirst pair '='
      let commaSplits := splitOnChar split.2 ','
      commaSplits.foldl
        (fun syms header =>
          syms ++ [{ name := llvmTrim split.1, kind := SymbolKind.Unknown,
                     filePath := llvmTrim header, lineNumber := 1 }])
        symbols)
    []

/-- The fixed-database construction algorithm as the specification
words it (split on `;` then `=` then `,`; each pair yields exactly one
record, in order), written as a direct `flatMap`/`map` formula to be
compared against the source loop `parseFixedInput`. -/
def fixedParseSpec (input : String) : List SymbolInfo :=
  (splitOnChar input ';').flatMap (fun pair =>
    (splitOnChar (splitFirst pair '=').2 ',').map (fun header =>
      { name := llvmTrim (splitFirst pair '=').1, kind := SymbolKind.Unknown,
        filePath := llvmTrim header, lineNumber := 1 }))

/-- Modelled from the spec: `InMemorySymbolIndex` (not under `src/`)
stores the record list it is constructed with and its lookup returns
all records whose stored name equals the queried name. -/
def inMemorySearch (symbols : List SymbolInfo) (name : String) : List SymbolInfo :=
  symbols.filter (fun s => s.name == name)

/-- The headers the `-input` literal explicitly associates with a name,
as the amended claim words it: for each `;`-piece whose trimmed
left-hand side equals the name, the trimmed `,`-pieces of its
right-hand side, where a piece without `=` contributes the single
header `""`. -/
def literalHeadersFor (input name : String) : List String :=
  (splitOnChar input ';').flatMap (fun pair =>
    if llvmTrim (splitFirst pair '=').1 == name then
      (splitOnChar (splitFirst pair '=').2 ',').map llvmTrim
    else [])

theorem fold_push_eq_map {α β : Type} (f : α → β) :
    ∀ (l : List α) (init : List β),
      List.foldl (fun acc x => acc ++ [f x]) init l = init ++ l.map f := by
  intro l
  induction l with
  | nil => intro init; simp
  | cons x xs ih => intro init; simp [ih]

theorem fold_concat_eq_flatMap {α β : Type} (f : α → List β) :
    ∀ (l : List α) (init : List β),
      List.foldl (fun acc x => acc ++ f x) init l = init ++ l.flatMap f := by
  intro l
  induction l with
  | nil => intro init; simp
  | cons x xs ih => intro init; simp [ih]

/-- Shared helper: the imperative parsing loop agrees with the
`flatMap` formula. -/
theorem parseFixedInput_eq_spec (input : String) :
    parseFixedInput input = fixedParseSpec input := by
  unfold parseFixedInput fixedParseSpec
  have hbody : (fun (symbols : List SymbolInfo) (pair : String) =>
      let split := splitFirst pair '='
      let commaSplits := splitOnChar split.2 ','
      commaSplits.foldl
        (fun syms header =>
          syms ++ [{ name := llvmTrim split.1, kind := SymbolKind.Unknown,
                     filePath := llvmTrim header, lineNumber := 1 }])
        symbols) =
      (fun (symbols : List SymbolInfo) (pair : String) =>
        symbols ++ (splitOnChar (splitFirst pair '=').2 ',').map
          (fun header =>
            { name := llvmTrim (splitFirst pair '=').1, kind := SymbolKind.Unknown,
              filePath := llvmTrim header, lineNumber := 1 })) := by
    funext symbols pair
    exact fold_push_eq_map _ _ _
  rw [hbody, fold_concat_eq_flatMap]
  simp

/-- Lexicographic byte-wise comparison on character lists, modelling
`operator<` of `std::string` (the ordering of `std::set<std::string>`). -/
def strLtB : List Char → List Char → Bool
  | _, [] => false
  | [], _ :: _ => true
  | a :: as, b :: bs =>
    if a.toNat < b.toNat then true
    else if b.toNat < a.toNat then false
    else strLtB as bs

/-- String wrapper around `strLtB`. -/
def strLt (a b : String) : Bool :=
  strLtB a.toList b.toList

theorem strLtB_irrefl : ∀ l : List Char, strLtB l l = false := by
  intro l
  induction l with
  | nil => rfl
  | cons c cs ih => simp [strLtB, ih]

theorem strLtB_cons_iff (a b : Char) (as bs : List Char) :
    strLtB (a :: as) (b :: bs) = true ↔
      a.toNat < b.toNat ∨ (a.toNat = b.toNat ∧ strLtB as bs = true) := by
  simp only [strLtB]
  by_cases h1 : a.toNat < b.toNat
  · simp [h1]
  · by_cases h2 : b.toNat < a.toNat
    · simp [h1, h2]
      omega
    · have heq : a.toNat = b.toNat := by omega
      simp [h1, h2, heq]

theorem strLtB_trans : ∀ a b c : List Char,
    strLtB a b = true → strLtB b c = true → strLtB a c = true := by
  intro a
  induction a with
  | nil =>
    intro b c hab hbc
    cases c with
    | nil =>
      cases b with
      | nil => exact hab
      | cons q qs => exact absurd hbc (by simp [strLtB])
    | cons r rs => simp [strLtB]
  | cons p ps ih =>
    intro b c hab hbc
    cases b with
    | nil => exact absurd hab (by simp [strLtB])
    | cons q qs =>
      cases c with
      | nil => exact absurd hbc (by simp [strLtB])
      | cons r rs =>
        rw [strLtB_cons_iff] at hab hbc ⊢
        rcases hab with h1 | ⟨h1, hrec1⟩
        · rcases hbc with h2 | ⟨h2, _⟩
          · exact Or.inl (by omega)
          · exact Or.inl (by omega)
        · rcases hbc with h2 | ⟨h2, hrec2⟩
          · exact Or.inl (by omega)
          · exact Or.inr ⟨by omega, ih qs rs hrec1 hrec2⟩

theorem charToNat_inj {a b : Char} (h : a.toNat = b.toNat) : a = b := by
  apply Char.ext
  exact UInt32.toNat.inj h

theorem strLtB_connex : ∀ a b : List Char,
    strLtB a b = false → strLtB b a = false → a = b := by
  intro a
  induction a with
  | nil =>
    intro b hab _
    cases b with
    | nil => rfl
    | cons q qs => exact absurd hab (by simp [strLtB])
  | cons p ps ih =>
    intro b hab hba
    cases b with
    | nil => exact absurd hba (by simp [strLtB])
    | cons q qs =>
      have hab2 : ¬ (p.toNat < q.toNat ∨ (p.toNat = q.toNat ∧ strLtB ps qs = true)) := by
        rw [← strLtB_cons_iff]
        simp [hab]
      have hba2 : ¬ (q.toNat < p.toNat ∨ (q.toNat = p.toNat ∧ strLtB qs ps = true)) := by
        rw [← strLtB_cons_iff]
        simp [hba]
      push_neg at hab2 hba2
      have heq : p.toNat = q.toNat := by omega
      have htail : ps = qs := by
        apply ih
        · by_contra hc
          exact absurd (hab2.2 heq) (by simp [hc])
        · by_contra hc
          exact absurd (hba2.2 heq.symm) (by simp [hc])
      rw [charToNat_inj heq, htail]

theorem strLt_trans {a b c : String} (h1 : strLt a b = true) (h2 : strLt b c = true) :
    strLt a c = true :=
  strLtB_trans a.toList b.toList c.toList h1 h2

theorem strLt_connex {a b : String} (h1 : strLt a b = false) (h2 : strLt b a = false) :
    a = b := by
  cases a with
  | mk la =>
    cases b with
    | mk lb =>
      have : la = lb := strLtB_connex la lb h1 h2
      rw [this]

theorem strLt_irrefl (a : String) : strLt a a = false :=
  strLtB_irrefl a.toList

theorem strLt_ne {a b : String} (h : strLt a b = true) : a ≠ b := by
  intro heq
  rw [heq] at h
  rw [strLt_irrefl] at h
  exact Bool.false_ne_true h

/-- Model of `std::set<std::string>::insert`: place the string at its
ordered position in the strictly sorted element list, keeping the list
unchanged when the string is already present. -/
def setInsert (x : String) : List String → List String
  | [] => [x]
  | y :: ys =>
    if strLt x y = true then x :: y :: ys
    else if x = y then y :: ys
    else y :: setInsert x ys

/-- The contents of the driver's `std::set<std::string> Headers` after
inserting every header produced by the tool run, enumerated in the
iteration (sorted) order of the set. -/
def headerSetOfList (hs : List String) : List String :=
  hs.foldl (fun s h => setInsert h s) []

theorem mem_setInsert (a x : String) : ∀ l : List String,
    a ∈ setInsert x l ↔ a = x ∨ a ∈ l := by
  intro l
  induction l with
  | nil => simp [setInsert]
  | cons y ys ih =>
    simp only [setInsert]
    by_cases h1 : strLt x y = true
    · simp [h1]
    · by_cases h2 : x = y
      · subst h2
        simp [h1]
      · simp [h1, h2, ih]
        tauto

theorem pairwise_setInsert (x : String) : ∀ l : List String,
    List.Pairwise (fun a b => strLt a b = true) l →
    List.Pairwise (fun a b => strLt a b = true) (setInsert x l) := by
  intro l
  induction l with
  | nil =>
    intro _
    simp [setInsert]
  | cons y ys ih =>
    intro hp
    rw [List.pairwise_cons] at hp
    simp only [setInsert]
    by_cases h1 : strLt x y = true
    · simp only [if_pos h1]
      rw [List.pairwise_cons]
      constructor
      · intro b hb
        rcases List.mem_cons.mp hb with hb | hb
        · rw [hb]; exact h1
        · exact strLt_trans h1 (hp.1 b hb)
      · rw [List.pairwise_cons]
        exact hp
    · rw [if_neg h1]
      by_cases h2 : x = y
      · rw [if_pos h2, List.pairwise_cons]
        exact hp
      · rw [if_neg h2, List.pairwise_cons]
        have hyx : strLt y x = true := by
          cases h3 : strLt y x with
          | true => rfl
          | false =>
            exact absurd (strLt_connex (Bool.of_not_eq_true h1) h3) h2
        constructor
        · intro b hb
          rcases (mem_setInsert b x ys).mp hb with hb | hb
          · rw [hb]; exact hyx
          · exact hp.1 b hb
        · exact ih hp.2

theorem pairwise_headerSetAux (l : List String) : ∀ s : List String,
    List.Pairwise (fun a b => strLt a b = true) s →
    List.Pairwise (fun a b => strLt a b = true)
      (l.foldl (fun acc h => setInsert h acc) s) := by
  induction l with
  | nil =>
    intro s hs
    exact hs
  | cons x xs ih =>
    intro s hs
    exact ih (setInsert x s) (pairwise_setInsert x s hs)

theorem mem_headerSetAux (a : String) (l : List String) : ∀ s : List String,
    a ∈ l.foldl (fun acc h => setInsert h acc) s ↔ a ∈ s ∨ a ∈ l := by
  induction l with
  | nil =>
    intro s
    simp
  | cons x xs ih =>
    intro s
    rw [List.foldl_cons, ih (setInsert x s), mem_setInsert]
    simp
    tauto

/-- Shared helper: the header set is strictly sorted in the
`std::string` order. -/
theorem headerSetOfList_pairwise (hs : List String) :
    List.Pairwise (fun a b => strLt a b = true) (headerSetOfList hs) :=
  pairwise_headerSetAux hs [] (List.Pairwise.nil)

/-- Shared helper: membership in the header set is membership in the
inserted list. -/
theorem mem_headerSetOfList (a : String) (hs : List String) :
    a ∈ headerSetOfList hs ↔ a ∈ hs := by
  rw [headerSetOfList, mem_headerSetAux]
  simp

/-- Shared helper: the header set has no duplicates. -/
theorem headerSetOfList_nodup (hs : List String) :
    (headerSetOfList hs).Nodup :=
  (headerSetOfList_pairwise hs).imp (fun h => strLt_ne h)

/-- Modelled from the spec: `YamlSymbolIndex::createFromDirectory` (not
under `src/`) searches the starting directory and then each ancestor
directory up to the filesystem root for the named database file.  A
directory is a list of path components; `hasFile p` says whether the
file with component path `p` exists; the result is the directory in
which the file was found, or `none` when no ancestor contains it. -/
def searchAncestors (hasFile : List String → Bool) (fn : String) (dir : List String) :
    Option (List String) :=
  if hasFile (dir ++ [fn]) = true then some dir
  else if dir.isEmpty = true then none
  else searchAncestors hasFile fn dir.dropLast
termination_by dir.length
decreasing_by
  rename_i h2
  simp [List.isEmpty_eq_true] at h2
  have : dir.length ≠ 0 := by
    intro hc
    exact h2 (List.length_eq_zero.mp hc)
  rw [List.length_dropLast]
  omega

/-- Shared helper: the ancestor search fails exactly when no ancestor
prefix of the starting directory (the directory itself included, the
root included) contains the file. -/
theorem searchAncestors_none_iff (hasFile : List String → Bool) (fn : String) :
    ∀ dir : List String,
      searchAncestors hasFile fn dir = none ↔
        ∀ i ≤ dir.length, hasFile (dir.take i ++ [fn]) = false := by
  have key : ∀ (n : Nat) (dir : List String), dir.length = n →
      (searchAncestors hasFile fn dir = none ↔
        ∀ i ≤ dir.length, hasFile (dir.take i ++ [fn]) = false) := by
    intro n
    induction n using Nat.strong_induction_on with
    | _ n ih =>
    intro dir hn
    rw [searchAncestors]
    by_cases hf : hasFile (dir ++ [fn]) = true
    · simp only [if_pos hf]
      constructor
      · intro hc
        exact absurd hc (by simp)
      · intro hall
        have := hall dir.length (Nat.le_refl _)
        rw [List.take_length] at this
        rw [hf] at this
        exact absurd this (by simp)
    · simp only [if_neg hf]
      by_cases he : dir.isEmpty = true
      · have hdir : dir = [] := List.isEmpty_eq_true.mp he
        subst hdir
        constructor
        · intro _ i hi
          have hi0 : i = 0 := Nat.le_zero.mp hi
          subst hi0
          simp only [List.take_nil, List.nil_append]
          simp only [List.nil_append] at hf
          exact Bool.of_not_eq_true hf
        · intro _
          rfl
      · simp only [if_neg he]
        have hdne : dir ≠ [] := fun hc => he (by simp [hc])
        have hlen : dir.dropLast.length < n := by
          rw [List.length_dropLast]
          have : dir.length ≠ 0 := fun hc => hdne (List.length_eq_zero.mp hc)
          omega
        rw [ih dir.dropLast.length hlen dir.dropLast rfl]
        constructor
        · intro hall i hi
          by_cases hil : i ≤ dir.dropLast.length
          · have := hall i hil
            rw [List.dropLast_eq_take, List.take_take] at this
            have hmin : min i (dir.length - 1) = i := by
              rw [List.length_dropLast] at hil
              omega
            rw [hmin] at this
            exact this
          · have hieq : i = dir.length := by
              rw [List.length_dropLast] at hil
              omega
            subst hieq
            rw [List.take_length]
            exact Bool.of_not_eq_true hf
        · intro hall i hi
          have := hall i (by rw [List.length_dropLast] at hi; omega)
          rw [List.dropLast_eq_take, List.take_take]
          have hmin : min i (dir.length - 1) = i := by
            rw [List.length_dropLast] at hi
            omega
          rw [hmin]
          exact this
  intro dir
  exact key dir.length dir rfl

/-- The command-line configuration of the tool: the `-db` selector, the
`-input` string, `-minimize-paths`, `-q`, `-stdin`, `-style`, and the
positional source path list parsed by `CommonOptionsParser`. -/
inductive DatabaseFormatTy
  | fixed
  | yaml
deriving DecidableEq, Repr

/-- A collected `clang::tooling::Replacement`: a text edit on a file. -/
structure Replacement where
  filePath : String
  offset : Nat
  length : Nat
  text : String
deriving DecidableEq, Repr

/-- Configuration record mirroring the `cl::opt` globals of
`ClangIncludeFixer.cpp` plus the source path list. -/
structure Config where
  databaseFormat : DatabaseFormatTy
  input : String
  minimizePaths : Bool
  quiet : Bool
  stdinMode : Bool
  style : String
  sourcePaths : List String

/-- Oracles for the external collaborators of the driver: the stdin
read, path utilities, the yaml database loader, the clang tool run
(its exit status, the headers it inserts into the `Headers` set and
the replacements it collects), the replacement applier and the
on-disk rewriter. -/
structure Env where
  stdinResult : Except String String
  absolutePath : String → String
  parentPath : String → String
  yamlFromFile : String → Except String (List SymbolInfo)
  yamlFromDirectory : String → String → Except String (List SymbolInfo)
  toolExit : Nat
  toolHeaders : List String
  toolReplacements : List Replacement
  applyAllReplacements : String → List Replacement → String
  overwriteFails : Bool
  overwriteFiles : List String

/-- A symbol index backend installed into the `SymbolIndexManager`. -/
inductive SymbolIndexBackend
  | inMemory (symbols : List SymbolInfo)
  | yamlIndex (symbols : List SymbolInfo)
deriving DecidableEq, Repr

/-- The database load the yaml branch of the driver requests: an
explicit file (`createFromFile`) or a directory search
(`createFromDirectory`). -/
inductive DbRequest
  | file (path : String)
  | directory (dir : String) (filename : String)
deriving DecidableEq, Repr

/-- Observable outcome of one driver run: the process exit code, the
text written to the output and error streams, the backends installed
into the index manager, the database load requested (if any), the
final contents of the `Headers` set, whether the clang tool was run,
whether edit application was reached, and the on-disk files modified. -/
structure RunResult where
  exitCode : Nat
  stdout : String
  stderr : String
  backends : List SymbolIndexBackend
  dbRequest : Option DbRequest
  headerSet : List String
  toolRan : Bool
  editApplied : Bool
  diskFilesModified : List String
deriving DecidableEq, Repr

/-- The database load the yaml branch performs: `createFromFile` on the
`-input` path when it is non-empty, otherwise `createFromDirectory` on
the parent directory of the absolute path of the first source file,
looking for `find_all_symbols_db.yaml`
(`ClangIncludeFixer.cpp`, case `yaml`). -/
def dbRequestFor (cfg : Config) (env : Env) : DbRequest :=
  if cfg.input ≠ "" then DbRequest.file cfg.input
  else
    DbRequest.directory
      (env.parentPath (env.absolutePath (cfg.sourcePaths.headD "")))
      "find_all_symbols_db.yaml"

/-- Dispatch of a database load request to the loader oracles. -/
def loadDb (env : Env) : DbRequest → Except String (List SymbolInfo)
  | DbRequest.file p => env.yamlFromFile p
  | DbRequest.directory d f => env.yamlFromDirectory d f

/-- The tail of `includeFixerMain` from `tool.run(&Factory)` on: a
failing tool run reports the fatal message and returns 1; otherwise
the added headers are reported (unless `-q`), and the edits are applied
to the in-memory buffer and printed in stdin mode, or written to disk
via the `Rewriter` in file mode (whose error status becomes the exit
code). -/
def runTool (cfg : Config) (env : Env) (code : Option String)
    (backends : List SymbolIndexBackend) (req : Option DbRequest) : RunResult :=
  let headers := headerSetOfList env.toolHeaders
  if env.toolExit ≠ 0 then
    { exitCode := 1, stdout := "",
      stderr := "Clang died with a fatal error! (incorrect include paths?)\n",
      backends := backends, dbRequest := req, headerSet := headers,
      toolRan := true, editApplied := false, diskFilesModified := [] }
  else
    let report :=
      if cfg.quiet then ""
      else String.join (headers.map (fun h => "Added #include " ++ h))
    if cfg.stdinMode then
      { exitCode := 0,
        stdout := env.applyAllReplacements (code.getD "") env.toolReplacements,
        stderr := report, backends := backends, dbRequest := req,
        headerSet := headers, toolRan := true, editApplied := true,
        diskFilesModified := [] }
    else
      { exitCode := if env.overwriteFails then 1 else 0, stdout := "",
        stderr := report, backends := backends, dbRequest := req,
        headerSet := headers, toolRan := true, editApplied := true,
        diskFilesModified := env.overwriteFiles }

/-- The data-source switch of `includeFixerMain`: case `fixed` parses
the `-input` literal and installs an `InMemorySymbolIndex`; case `yaml`
loads the database (explicit file or directory search), reports
`Couldn\x27t find YAML db` and returns 1 on failure, and installs the
loaded `YamlSymbolIndex` on success. -/
def runWithIndex (cfg : Config) (env : Env) (code : Option String) : RunResult :=
  match cfg.databaseFormat with
  | DatabaseFormatTy.fixed =>
      runTool cfg env code
        [SymbolIndexBackend.inMemory (parseFixedInput cfg.input)] none
  | DatabaseFormatTy.yaml =>
      match loadDb env (dbRequestFor cfg env) with
      | Except.error msg =>
          { exitCode := 1, stdout := "",
            stderr := "Couldn\x27t find YAML db: " ++ msg ++ "\n",
            backends := [], dbRequest := some (dbRequestFor cfg env),
            headerSet := [], toolRan := false, editApplied := false,
            diskFilesModified := [] }
      | Except.ok syms =>
          runTool cfg env code [SymbolIndexBackend.yamlIndex syms]
            (some (dbRequestFor cfg env))

/-- The driver `includeFixerMain` of `ClangIncludeFixer.cpp`.  In stdin
mode it asserts exactly one source path (a violated assertion is the
`Except.error` outcome), reads stdin (a read error prints the message
and returns 1), returns 0 immediately on an empty buffer, and maps the
buffer over the source file; then the data source is set up and the
tool is run. -/
def includeFixerMain (cfg : Config) (env : Env) : Except String RunResult :=
  if cfg.stdinMode then
    if cfg.sourcePaths.length = 1 then
      match env.stdinResult with
      | Except.error msg =>
          Except.ok
            { exitCode := 1, stdout := "", stderr := msg ++ "\n",
              backends := [], dbRequest := none, headerSet := [],
              toolRan := false, editApplied := false, diskFilesModified := [] }
      | Except.ok code =>
          if code.length = 0 then
            Except.ok
              { exitCode := 0, stdout := "", stderr := "",
                backends := [], dbRequest := none, headerSet := [],
                toolRan := false, editApplied := false, diskFilesModified := [] }
          else Except.ok (runWithIndex cfg env (some code))
    else Except.error "Expect exactly one file path in STDINMode."
  else Except.ok (runWithIndex cfg env none)

/-- The header report the tool prints to the error stream: nothing in
quiet mode, otherwise the concatenation of `"Added #include " ++ h`
over the header set in its enumeration order. -/
def reportOf (cfg : Config) (env : Env) : String :=
  if cfg.quiet then ""
  else String.join ((headerSetOfList env.toolHeaders).map
    (fun h => "Added #include " ++ h))

theorem runTool_cases (cfg : Config) (env : Env) (c : Option String)
    (bks : List SymbolIndexBackend) (req : Option DbRequest) :
    (env.toolExit ≠ 0 ∧ runTool cfg env c bks req =
       { exitCode := 1, stdout := "",
         stderr := "Clang died with a fatal error! (incorrect include paths?)\n",
         backends := bks, dbRequest := req,
         headerSet := headerSetOfList env.toolHeaders,
         toolRan := true, editApplied := false, diskFilesModified := [] }) ∨
    (env.toolExit = 0 ∧ cfg.stdinMode = true ∧ runTool cfg env c bks req =
       { exitCode := 0,
         stdout := env.applyAllReplacements (c.getD "") env.toolReplacements,
         stderr := reportOf cfg env, backends := bks, dbRequest := req,
         headerSet := headerSetOfList env.toolHeaders,
         toolRan := true, editApplied := true, diskFilesModified := [] }) ∨
    (env.toolExit = 0 ∧ cfg.stdinMode = false ∧ runTool cfg env c bks req =
       { exitCode := if env.overwriteFails then 1 else 0, stdout := "",
         stderr := reportOf cfg env, backends := bks, dbRequest := req,
         headerSet := headerSetOfList env.toolHeaders,
         toolRan := true, editApplied := true,
         diskFilesModified := env.overwriteFiles }) := by
  unfold runTool reportOf
  by_cases ht : env.toolExit ≠ 0
  · left
    rw [if_pos ht]
    exact ⟨ht, rfl⟩
  · rw [if_neg ht]
    push_neg at ht
    by_cases hs : cfg.stdinMode = true
    · right; left
      rw [hs]
      exact ⟨ht, rfl, by simp⟩
    · right; right
      have hs2 : cfg.stdinMode = false := by
        cases hcs : cfg.stdinMode with
        | true => exact absurd hcs hs
        | false => rfl
      rw [hs2]
      exact ⟨ht, rfl, by simp⟩

theorem runWithIndex_cases (cfg : Config) (env : Env) (c : Option String) :
    (cfg.databaseFormat = DatabaseFormatTy.fixed ∧
       runWithIndex cfg env c =
         runTool cfg env c
           [SymbolIndexBackend.inMemory (parseFixedInput cfg.input)] none) ∨
    (∃ msg, cfg.databaseFormat = DatabaseFormatTy.yaml ∧
       loadDb env (dbRequestFor cfg env) = Except.error msg ∧
       runWithIndex cfg env c =
         { exitCode := 1, stdout := "",
           stderr := "Couldn\x27t find YAML db: " ++ msg ++ "\n",
           backends := [], dbRequest := some (dbRequestFor cfg env),
           headerSet := [], toolRan := false, editApplied := false,
           diskFilesModified := [] }) ∨
    (∃ syms, cfg.databaseFormat = DatabaseFormatTy.yaml ∧
       loadDb env (dbRequestFor cfg env) = Except.ok syms ∧
       runWithIndex cfg env c =
         runTool cfg env c [SymbolIndexBackend.yamlIndex syms]
           (some (dbRequestFor cfg env))) := by
  cases hdb : cfg.databaseFormat with
  | fixed =>
    left
    refine ⟨rfl, ?_⟩
    unfold runWithIndex
    rw [hdb]
  | yaml =>
    cases hl : loadDb env (dbRequestFor cfg env) with
    | error msg =>
      right; left
      refine ⟨msg, rfl, rfl, ?_⟩
      unfold runWithIndex
      rw [hdb]
      dsimp only
      rw [hl]
    | ok syms =>
      right; right
      refine ⟨syms, rfl, rfl, ?_⟩
      unfold runWithIndex
      rw [hdb]
      dsimp only
      rw [hl]

theorem includeFixerMain_cases (cfg : Config) (env : Env) (r : RunResult)
    (h : includeFixerMain cfg env = Except.ok r) :
    (∃ msg, cfg.stdinMode = true ∧ cfg.sourcePaths.length = 1 ∧
       env.stdinResult = Except.error msg ∧
       r = { exitCode := 1, stdout := "", stderr := msg ++ "\n",
             backends := [], dbRequest := none, headerSet := [],
             toolRan := false, editApplied := false,
             diskFilesModified := [] }) ∨
    (∃ code, cfg.stdinMode = true ∧ cfg.sourcePaths.length = 1 ∧
       env.stdinResult = Except.ok code ∧ code.length = 0 ∧
       r = { exitCode := 0, stdout := "", stderr := "", backends := [],
             dbRequest := none, headerSet := [], toolRan := false,
             editApplied := false, diskFilesModified := [] }) ∨
    (∃ code, cfg.stdinMode = true ∧ cfg.sourcePaths.length = 1 ∧
       env.stdinResult = Except.ok code ∧ code.length ≠ 0 ∧
       r = runWithIndex cfg env (some code)) ∨
    (cfg.stdinMode = false ∧ r = runWithIndex cfg env none) := by
  unfold includeFixerMain at h
  by_cases hs : cfg.stdinMode = true
  · rw [hs] at h
    simp only [if_true] at h
    by_cases h1 : cfg.sourcePaths.length = 1
    · rw [if_pos h1] at h
      cases he : env.stdinResult with
      | error msg =>
        rw [he] at h
        dsimp only at h
        left
        exact ⟨msg, hs, h1, rfl, (Except.ok.inj h).symm⟩
      | ok code =>
        rw [he] at h
        dsimp only at h
        by_cases hc : code.length = 0
        · rw [if_pos hc] at h
          right; left
          exact ⟨code, hs, h1, rfl, hc, (Except.ok.inj h).symm⟩
        · rw [if_neg hc] at h
          right; right; left
          exact ⟨code, hs, h1, rfl, hc, (Except.ok.inj h).symm⟩
    · rw [if_neg h1] at h
      exact absurd h (by simp)
  · have hs2 : cfg.stdinMode = false := by
      cases hcs : cfg.stdinMode with
      | true => exact absurd hcs hs
      | false => rfl
    rw [hs2] at h
    simp only [Bool.false_eq_true, if_false] at h
    right; right; right
    exact ⟨hs2, (Except.ok.inj h).symm⟩

/-- Sample environment for the concrete witnesses: empty stdin, a
failing yaml loader, a successful tool run that inserts no headers and
collects no replacements, and a successful rewrite of no files. -/
def sampleEnv : Env :=
  { stdinResult := Except.ok ""
  , absolutePath := fun p => "/work/" ++ p
  , parentPath := fun _ => "/work"
  , yamlFromFile := fun _ => Except.error "no such file or directory"
  , yamlFromDirectory := fun _ _ => Except.error "no yaml db found"
  , toolExit := 0
  , toolHeaders := []
  , toolReplacements := []
  , applyAllReplacements := fun code reps => code ++ String.join (reps.map Replacement.text)
  , overwriteFails := false
  , overwriteFiles := [] }

/-- Sample configuration for the concrete witnesses. -/
def sampleCfg : Config :=
  { databaseFormat := DatabaseFormatTy.fixed
  , input := "Foo=foo.h;Bar=bar.h,bar2.h"
  , minimizePaths := true
  , quiet := false
  , stdinMode := false
  , style := "llvm"
  , sourcePaths := ["main.cc"] }

/-- C2: in stream-override (stdin) mode, an empty input stream makes
the run terminate with exit code 0, produce no output on either
stream, construct no index (no backend installed, no database load
requested) and attempt no edit. -/
theorem stdin_empty_short_circuit (cfg : Config) (env : Env)
    (hs : cfg.stdinMode = true) (h1 : cfg.sourcePaths.length = 1)
    (he : env.stdinResult = Except.ok "") :
    includeFixerMain cfg env = Except.ok
      { exitCode := 0, stdout := "", stderr := "", backends := [],
        dbRequest := none, headerSet := [], toolRan := false,
        editApplied := false, diskFilesModified := [] } := by
  unfold includeFixerMain
  rw [hs, h1, he]
  simp

/-- Witness for C2 at a concrete stdin-mode configuration. -/
theorem stdin_empty_short_circuit_witness :
    includeFixerMain { sampleCfg with stdinMode := true } sampleEnv = Except.ok
      { exitCode := 0, stdout := "", stderr := "", backends := [],
        dbRequest := none, headerSet := [], toolRan := false,
        editApplied := false, diskFilesModified := [] } :=
  stdin_empty_short_circuit { sampleCfg with stdinMode := true } sampleEnv rfl rfl rfl

/-- C5: stream-override mode with a source path list whose length is
not one violates the `assert` of `includeFixerMain` and the run is
rejected (assertion outcome) instead of being processed. -/
theorem stdin_requires_one_unit (cfg : Config) (env : Env)
    (hs : cfg.stdinMode = true) (hn : cfg.sourcePaths.length ≠ 1) :
    includeFixerMain cfg env =
      Except.error "Expect exactly one file path in STDINMode." := by
  unfold includeFixerMain
  rw [hs]
  simp [hn]

/-- Witness for C5: zero input units in stdin mode are rejected. -/
theorem stdin_requires_one_unit_witness :
    includeFixerMain { sampleCfg with stdinMode := true, sourcePaths := [] }
        sampleEnv =
      Except.error "Expect exactly one file path in STDINMode." :=
  stdin_requires_one_unit { sampleCfg with stdinMode := true, sourcePaths := [] }
    sampleEnv rfl (by decide)

/-- C9: fixed-mode index construction follows exactly the
split-on-`;`, split-at-first-`=`, split-on-`,` algorithm: every
resulting (name, header) pair yields exactly one record whose name and
header are whitespace-trimmed, whose kind is `Unknown` and whose line
hint is 1, in the order the pairs appear in the literal. -/
theorem fixed_construction_algorithm (input : String) :
    parseFixedInput input = fixedParseSpec input :=
  parseFixedInput_eq_spec input

/-- C1 counterexample: the literal `Foo` lacks `=` yet is not skipped:
construction produces one record, whose header is the empty string, and
a lookup of `Foo` returns that empty-string header even though the
literal associates no header with `Foo`. -/
theorem malformed_entry_not_skipped :
    parseFixedInput "Foo" =
      [{ name := "Foo", kind := SymbolKind.Unknown, filePath := "",
         lineNumber := 1 }] ∧
    parseFixedInput "Foo" ≠ [] ∧
    (inMemorySearch (parseFixedInput "Foo") "Foo").map SymbolInfo.filePath =
      [""] := by
  decide

theorem entry_filter_map (lhs nm : String) (l : List String) :
    ((l.map (fun header =>
        ({ name := llvmTrim lhs, kind := SymbolKind.Unknown,
           filePath := llvmTrim header, lineNumber := 1 } : SymbolInfo))).filter
      (fun s => s.name == nm)).map SymbolInfo.filePath =
    if llvmTrim lhs == nm then l.map llvmTrim else [] := by
  induction l with
  | nil => simp
  | cons x xs ih =>
    by_cases hq : (llvmTrim lhs == nm) = true
    · simp [hq] at ih ⊢
      exact ih
    · simp [hq] at ih ⊢
      exact ih

/-- C1 (amended): lookup of a name in the fixed-mode in-memory index
returns exactly the trimmed headers of the literal entries whose
trimmed name part equals that name — where an entry lacking `=` is not
skipped but contributes one record whose header is the empty string. -/
theorem lookup_returns_literal_headers (input name : String) :
    (inMemorySearch (parseFixedInput input) name).map SymbolInfo.filePath =
      literalHeadersFor input name := by
  rw [parseFixedInput_eq_spec]
  unfold fixedParseSpec literalHeadersFor inMemorySearch
  induction splitOnChar input ';' with
  | nil => simp
  | cons p ps ih =>
    simp only [List.flatMap_cons, List.filter_append, List.map_append, ih]
    congr 1
    exact entry_filter_map (splitFirst p '=').1 name
      (splitOnChar (splitFirst p '=').2 ',')

theorem runTool_fields (cfg : Config) (env : Env) (c : Option String)
    (bks : List SymbolIndexBackend) (req : Option DbRequest) :
    (runTool cfg env c bks req).backends = bks ∧
    (runTool cfg env c bks req).dbRequest = req ∧
    (runTool cfg env c bks req).toolRan = true ∧
    (runTool cfg env c bks req).headerSet = headerSetOfList env.toolHeaders := by
  rcases runTool_cases cfg env c bks req with ⟨_, hr⟩ | ⟨_, _, hr⟩ | ⟨_, _, hr⟩ <;>
    rw [hr] <;> exact ⟨rfl, rfl, rfl, rfl⟩

theorem runWithIndex_headerSet_shape (cfg : Config) (env : Env) (c : Option String) :
    ((runWithIndex cfg env c).headerSet = [] ∧
      (runWithIndex cfg env c).toolRan = false) ∨
    ((runWithIndex cfg env c).headerSet = headerSetOfList env.toolHeaders ∧
      (runWithIndex cfg env c).toolRan = true) := by
  rcases runWithIndex_cases cfg env c with ⟨_, hr⟩ | ⟨msg, _, _, hr⟩ | ⟨syms, _, _, hr⟩
  · rw [hr]
    right
    exact ⟨(runTool_fields cfg env c _ _).2.2.2, (runTool_fields cfg env c _ _).2.2.1⟩
  · rw [hr]
    left
    exact ⟨rfl, rfl⟩
  · rw [hr]
    right
    exact ⟨(runTool_fields cfg env c _ _).2.2.2, (runTool_fields cfg env c _ _).2.2.1⟩

/-- C6: for every run, the header set chosen for insertion contains
each header path at most once (no duplicates), is enumerated in
lexicographic `std::string` order, and — whenever the tool ran — its
members are exactly the headers the tool run inserted. -/
theorem header_set_dedup_sorted (cfg : Config) (env : Env) (r : RunResult)
    (h : includeFixerMain cfg env = Except.ok r) :
    List.Pairwise (fun a b => strLt a b = true) r.headerSet ∧
    r.headerSet.Nodup ∧
    (r.toolRan = true → ∀ x, x ∈ r.headerSet ↔ x ∈ env.toolHeaders) := by
  have hshape : (r.headerSet = [] ∧ r.toolRan = false) ∨
      r.headerSet = headerSetOfList env.toolHeaders := by
    rcases includeFixerMain_cases cfg env r h with
      ⟨msg, _, _, _, hr⟩ | ⟨code, _, _, _, _, hr⟩ | ⟨code, _, _, _, _, hr⟩ | ⟨_, hr⟩
    · subst hr; left; exact ⟨rfl, rfl⟩
    · subst hr; left; exact ⟨rfl, rfl⟩
    · subst hr
      rcases runWithIndex_headerSet_shape cfg env (some code) with ⟨h1, h2⟩ | ⟨h1, _⟩
      · left; exact ⟨h1, h2⟩
      · right; exact h1
    · subst hr
      rcases runWithIndex_headerSet_shape cfg env none with ⟨h1, h2⟩ | ⟨h1, _⟩
      · left; exact ⟨h1, h2⟩
      · right; exact h1
  rcases hshape with ⟨h1, h2⟩ | h1
  · rw [h1]
    refine ⟨List.Pairwise.nil, List.nodup_nil, fun ht => ?_⟩
    rw [h2] at ht
    exact absurd ht (by simp)
  · rw [h1]
    exact ⟨headerSetOfList_pairwise env.toolHeaders,
      headerSetOfList_nodup env.toolHeaders,
      fun _ x => mem_headerSetOfList x env.toolHeaders⟩

/-- Environment whose tool run inserts an unsorted header list with a
duplicate, for the C6 witness. -/
def envHeaders : Env :=
  { sampleEnv with toolHeaders := ["b.h", "a.h", "b.h"] }

/-- Witness for C6 at a concrete run whose tool inserts
`b.h, a.h, b.h`. -/
theorem header_set_dedup_sorted_witness :
    List.Pairwise (fun a b => strLt a b = true)
      (runWithIndex sampleCfg envHeaders none).headerSet ∧
    (runWithIndex sampleCfg envHeaders none).headerSet.Nodup ∧
    ((runWithIndex sampleCfg envHeaders none).toolRan = true →
      ∀ x, x ∈ (runWithIndex sampleCfg envHeaders none).headerSet ↔
        x ∈ envHeaders.toolHeaders) :=
  header_set_dedup_sorted sampleCfg envHeaders
    (runWithIndex sampleCfg envHeaders none) rfl

/-- Environment whose tool run inserts exactly two headers, for the C7
counterexample. -/
def envTwoHeaders : Env :=
  { sampleEnv with toolHeaders := ["b.h", "a.h"] }

/-- C7 counterexample: with quiet mode off and two headers added, the
report written to the error stream is the single unseparated string
`Added #include a.hAdded #include b.h` — it contains no newline
character, so the program does not emit one line per added header. -/
theorem report_line_per_header_counterexample :
    (Except.map RunResult.stderr (includeFixerMain sampleCfg envTwoHeaders)).toOption =
      some "Added #include a.hAdded #include b.h" ∧
    (Except.map (fun r => r.headerSet.length)
      (includeFixerMain sampleCfg envTwoHeaders)).toOption = some 2 ∧
    (Except.map (fun r => r.stderr.toList.contains '\n')
      (includeFixerMain sampleCfg envTwoHeaders)).toOption = some false ∧
    (Except.map RunResult.stderr (includeFixerMain sampleCfg envTwoHeaders)).toOption ≠
      some "Added #include a.h\nAdded #include b.h\n" := by
  decide

theorem runTool_report (cfg : Config) (env : Env) (c : Option String)
    (bks : List SymbolIndexBackend) (req : Option DbRequest)
    (ha : (runTool cfg env c bks req).editApplied = true) :
    (runTool cfg env c bks req).stderr =
      (if cfg.quiet = true then ""
       else String.join ((runTool cfg env c bks req).headerSet.map
         (fun hd => "Added #include " ++ hd))) := by
  rcases runTool_cases cfg env c bks req with ⟨_, hr⟩ | ⟨_, _, hr⟩ | ⟨_, _, hr⟩ <;>
    rw [hr] at ha ⊢
  · exact absurd ha (by simp)
  · rfl
  · rfl

/-- C7 (amended): whenever edit application is reached, the
error-stream report is empty in quiet mode and otherwise is the
concatenation of `Added #include h` over the header set in order,
with no newline separators between entries. -/
theorem report_format (cfg : Config) (env : Env) (r : RunResult)
    (h : includeFixerMain cfg env = Except.ok r) (ha : r.editApplied = true) :
    r.stderr =
      (if cfg.quiet = true then ""
       else String.join (r.headerSet.map (fun hd => "Added #include " ++ hd))) := by
  rcases includeFixerMain_cases cfg env r h with
    ⟨msg, _, _, _, hr⟩ | ⟨code, _, _, _, _, hr⟩ | ⟨code, _, _, _, _, hr⟩ | ⟨_, hr⟩
  · subst hr; exact absurd ha (by simp)
  · subst hr; exact absurd ha (by simp)
  · subst hr
    rcases runWithIndex_cases cfg env (some code) with
      ⟨_, hr2⟩ | ⟨msg, _, _, hr2⟩ | ⟨syms, _, _, hr2⟩
    · rw [hr2] at ha ⊢; exact runTool_report cfg env (some code) _ _ ha
    · rw [hr2] at ha; exact absurd ha (by simp)
    · rw [hr2] at ha ⊢; exact runTool_report cfg env (some code) _ _ ha
  · subst hr
    rcases runWithIndex_cases cfg env none with
      ⟨_, hr2⟩ | ⟨msg, _, _, hr2⟩ | ⟨syms, _, _, hr2⟩
    · rw [hr2] at ha ⊢; exact runTool_report cfg env none _ _ ha
    · rw [hr2] at ha; exact absurd ha (by simp)
    · rw [hr2] at ha ⊢; exact runTool_report cfg env none _ _ ha

/-- Witness for the amended C7 at a concrete non-quiet run with two
headers. -/
theorem report_format_witness :
    (runWithIndex sampleCfg envTwoHeaders none).stderr =
      (if sampleCfg.quiet = true then ""
       else String.join ((runWithIndex sampleCfg envTwoHeaders none).headerSet.map
         (fun hd => "Added #include " ++ hd))) :=
  report_format sampleCfg envTwoHeaders
    (runWithIndex sampleCfg envTwoHeaders none) rfl (by decide)

/-- C8: in stream-override mode (with the tool run succeeding), the
collected edits are applied to the in-memory buffer read from the
input stream, the patched text is written to the output stream with
exit code 0, and no on-disk file is modified by the run. -/
theorem stdin_edits_in_memory (cfg : Config) (env : Env) (code : String)
    (hs : cfg.stdinMode = true) (h1 : cfg.sourcePaths.length = 1)
    (he : env.stdinResult = Except.ok code) (hne : code.length ≠ 0)
    (ht : env.toolExit = 0) :
    includeFixerMain cfg env = Except.ok (runWithIndex cfg env (some code)) ∧
    ((runWithIndex cfg env (some code)).toolRan = true →
      (runWithIndex cfg env (some code)).stdout =
        env.applyAllReplacements code env.toolReplacements ∧
      (runWithIndex cfg env (some code)).exitCode = 0) ∧
    (runWithIndex cfg env (some code)).diskFilesModified = [] := by
  have hmain : includeFixerMain cfg env =
      Except.ok (runWithIndex cfg env (some code)) := by
    unfold includeFixerMain
    rw [hs, h1, he]
    simp [hne]
  refine ⟨hmain, ?_⟩
  have htool : ∀ bks req, (runTool cfg env (some code) bks req).stdout =
      env.applyAllReplacements code env.toolReplacements ∧
      (runTool cfg env (some code) bks req).exitCode = 0 ∧
      (runTool cfg env (some code) bks req).diskFilesModified = [] := by
    intro bks req
    rcases runTool_cases cfg env (some code) bks req with
      ⟨ht2, _⟩ | ⟨_, _, hr⟩ | ⟨_, hs2, _⟩
    · exact absurd ht ht2
    · rw [hr]
      exact ⟨rfl, rfl, rfl⟩
    · rw [hs] at hs2
      exact absurd hs2 (by simp)
  rcases runWithIndex_cases cfg env (some code) with
    ⟨_, hr2⟩ | ⟨msg, _, _, hr2⟩ | ⟨syms, _, _, hr2⟩
  · rw [hr2]
    exact ⟨fun _ => ⟨(htool _ _).1, (htool _ _).2.1⟩, (htool _ _).2.2⟩
  · rw [hr2]
    exact ⟨fun hc => absurd hc (by simp), rfl⟩
  · rw [hr2]
    exact ⟨fun _ => ⟨(htool _ _).1, (htool _ _).2.1⟩, (htool _ _).2.2⟩

/-- Environment for the C8 witness: stdin holds a small buffer and the
tool collects one replacement. -/
def envStdin : Env :=
  { sampleEnv with
      stdinResult := Except.ok "int x;\n"
    , toolReplacements :=
        [{ filePath := "main.cc", offset := 0, length := 0,
           text := "#include <a.h>\n" }] }

/-- Witness for C8 at a concrete stdin-mode run. -/
theorem stdin_edits_in_memory_witness :
    includeFixerMain { sampleCfg with stdinMode := true } envStdin =
      Except.ok (runWithIndex { sampleCfg with stdinMode := true } envStdin
        (some "int x;\n")) ∧
    ((runWithIndex { sampleCfg with stdinMode := true } envStdin
        (some "int x;\n")).toolRan = true →
      (runWithIndex { sampleCfg with stdinMode := true } envStdin
        (some "int x;\n")).stdout =
        envStdin.applyAllReplacements "int x;\n" envStdin.toolReplacements ∧
      (runWithIndex { sampleCfg with stdinMode := true } envStdin
        (some "int x;\n")).exitCode = 0) ∧
    (runWithIndex { sampleCfg with stdinMode := true } envStdin
      (some "int x;\n")).diskFilesModified = [] :=
  stdin_edits_in_memory { sampleCfg with stdinMode := true } envStdin "int x;\n"
    rfl rfl rfl (by decide) rfl

/-- C10 counterexample: the successful empty-stdin run installs zero
backends, so it is not true that every invocation installs exactly one
backend into the index manager. -/
theorem backend_count_counterexample :
    (Except.map (fun r => r.backends.length)
      (includeFixerMain { sampleCfg with stdinMode := true } sampleEnv)).toOption =
      some 0 ∧
    (Except.map RunResult.exitCode
      (includeFixerMain { sampleCfg with stdinMode := true } sampleEnv)).toOption =
      some 0 := by
  decide

/-- C10 (amended): a run never installs more than one backend, and any
run that reaches the tool phase installs exactly one — the in-memory
index under db=fixed and the loaded yaml index under db=yaml — so
cross-backend merging and backend-priority tie-breaking never occur
within a single run. -/
theorem at_most_one_backend (cfg : Config) (env : Env) (r : RunResult)
    (h : includeFixerMain cfg env = Except.ok r) :
    r.backends.length ≤ 1 ∧
    (r.toolRan = true →
      (cfg.databaseFormat = DatabaseFormatTy.fixed →
        r.backends =
          [SymbolIndexBackend.inMemory (parseFixedInput cfg.input)]) ∧
      (cfg.databaseFormat = DatabaseFormatTy.yaml →
        ∃ syms, loadDb env (dbRequestFor cfg env) = Except.ok syms ∧
          r.backends = [SymbolIndexBackend.yamlIndex syms]) ∧
      r.backends.length = 1) := by
  have hwix : ∀ c, (runWithIndex cfg env c).backends.length ≤ 1 ∧
      ((runWithIndex cfg env c).toolRan = true →
        (cfg.databaseFormat = DatabaseFormatTy.fixed →
          (runWithIndex cfg env c).backends =
            [SymbolIndexBackend.inMemory (parseFixedInput cfg.input)]) ∧
        (cfg.databaseFormat = DatabaseFormatTy.yaml →
          ∃ syms, loadDb env (dbRequestFor cfg env) = Except.ok syms ∧
            (runWithIndex cfg env c).backends =
              [SymbolIndexBackend.yamlIndex syms]) ∧
        (runWithIndex cfg env c).backends.length = 1) := by
    intro c
    rcases runWithIndex_cases cfg env c with
      ⟨hdb, hr2⟩ | ⟨msg, hdb, hload, hr2⟩ | ⟨syms, hdb, hload, hr2⟩
    · rw [hr2, (runTool_fields cfg env c _ _).1]
      refine ⟨by simp, fun _ => ⟨fun _ => rfl, fun hy => ?_, by simp⟩⟩
      rw [hdb] at hy
      exact absurd hy (by simp)
    · rw [hr2]
      refine ⟨by simp, fun hc => absurd hc (by simp)⟩
    · rw [hr2, (runTool_fields cfg env c _ _).1]
      refine ⟨by simp, fun _ => ⟨fun hf => ?_, fun _ => ⟨syms, hload, rfl⟩, by simp⟩⟩
      rw [hdb] at hf
      exact absurd hf (by simp)
  rcases includeFixerMain_cases cfg env r h with
    ⟨msg, _, _, _, hr⟩ | ⟨code, _, _, _, _, hr⟩ | ⟨code, _, _, _, _, hr⟩ | ⟨_, hr⟩
  · subst hr
    exact ⟨by simp, fun hc => absurd hc (by simp)⟩
  · subst hr
    exact ⟨by simp, fun hc => absurd hc (by simp)⟩
  · subst hr
    exact hwix (some code)
  · subst hr
    exact hwix none

/-- Witness for the amended C10 at a concrete fixed-mode run. -/
theorem at_most_one_backend_witness :
    (runWithIndex sampleCfg sampleEnv none).backends.length ≤ 1 ∧
    ((runWithIndex sampleCfg sampleEnv none).toolRan = true →
      (sampleCfg.databaseFormat = DatabaseFormatTy.fixed →
        (runWithIndex sampleCfg sampleEnv none).backends =
          [SymbolIndexBackend.inMemory (parseFixedInput sampleCfg.input)]) ∧
      (sampleCfg.databaseFormat = DatabaseFormatTy.yaml →
        ∃ syms, loadDb sampleEnv (dbRequestFor sampleCfg sampleEnv) =
            Except.ok syms ∧
          (runWithIndex sampleCfg sampleEnv none).backends =
            [SymbolIndexBackend.yamlIndex syms]) ∧
      (runWithIndex sampleCfg sampleEnv none).backends.length = 1) :=
  at_most_one_backend sampleCfg sampleEnv
    (runWithIndex sampleCfg sampleEnv none) rfl

/-- C3: with the yaml backend selected and index setup reached, a
non-empty `-input` string is loaded as an explicit database file and an
empty one triggers the search for `find_all_symbols_db.yaml` starting
at the parent directory of the absolute path of the first input unit;
the modelled ancestor search fails exactly when no ancestor directory
contains the file; and a load or search failure is fatal — reported,
exit code 1, before any input unit is processed. -/
theorem yaml_load_dispatch (cfg : Config) (env : Env) (r : RunResult)
    (hdb : cfg.databaseFormat = DatabaseFormatTy.yaml)
    (h : includeFixerMain cfg env = Except.ok r)
    (hreach : r.dbRequest ≠ none) :
    r.dbRequest = some (dbRequestFor cfg env) ∧
    (cfg.input ≠ "" → dbRequestFor cfg env = DbRequest.file cfg.input) ∧
    (cfg.input = "" → dbRequestFor cfg env =
      DbRequest.directory
        (env.parentPath (env.absolutePath (cfg.sourcePaths.headD "")))
        "find_all_symbols_db.yaml") ∧
    (∀ msg, loadDb env (dbRequestFor cfg env) = Except.error msg →
      r.exitCode = 1 ∧ r.toolRan = false ∧ r.editApplied = false ∧
      r.backends = [] ∧ r.diskFilesModified = [] ∧
      r.stderr = "Couldn\x27t find YAML db: " ++ msg ++ "\n") ∧
    (∀ hasFile : List String → Bool, ∀ fn : String, ∀ dir : List String,
      searchAncestors hasFile fn dir = none ↔
        ∀ i ≤ dir.length, hasFile (dir.take i ++ [fn]) = false) := by
  have hdisp1 : cfg.input ≠ "" → dbRequestFor cfg env = DbRequest.file cfg.input := by
    intro hi
    unfold dbRequestFor
    rw [if_pos hi]
  have hdisp2 : cfg.input = "" → dbRequestFor cfg env =
      DbRequest.directory
        (env.parentPath (env.absolutePath (cfg.sourcePaths.headD "")))
        "find_all_symbols_db.yaml" := by
    intro hi
    unfold dbRequestFor
    rw [if_neg (by simp [hi])]
  have hwix : ∀ c, (runWithIndex cfg env c).dbRequest =
        some (dbRequestFor cfg env) ∧
      (∀ msg, loadDb env (dbRequestFor cfg env) = Except.error msg →
        (runWithIndex cfg env c).exitCode = 1 ∧
        (runWithIndex cfg env c).toolRan = false ∧
        (runWithIndex cfg env c).editApplied = false ∧
        (runWithIndex cfg env c).backends = [] ∧
        (runWithIndex cfg env c).diskFilesModified = [] ∧
        (runWithIndex cfg env c).stderr =
          "Couldn\x27t find YAML db: " ++ msg ++ "\n") := by
    intro c
    rcases runWithIndex_cases cfg env c with
      ⟨hf, hr2⟩ | ⟨msg, _, hload, hr2⟩ | ⟨syms, _, hload, hr2⟩
    · rw [hf] at hdb
      exact absurd hdb (by simp)
    · rw [hr2]
      refine ⟨rfl, fun msg2 hl2 => ?_⟩
      rw [hload] at hl2
      have : msg = msg2 := Except.error.inj hl2
      subst this
      exact ⟨rfl, rfl, rfl, rfl, rfl, rfl⟩
    · rw [hr2, (runTool_fields cfg env c _ _).2.1]
      refine ⟨rfl, fun msg2 hl2 => ?_⟩
      rw [hload] at hl2
      exact absurd hl2 (by simp)
  rcases includeFixerMain_cases cfg env r h with
    ⟨msg, _, _, _, hr⟩ | ⟨code, _, _, _, _, hr⟩ | ⟨code, _, _, _, _, hr⟩ | ⟨_, hr⟩
  · subst hr
    exact absurd rfl hreach
  · subst hr
    exact absurd rfl hreach
  · subst hr
    exact ⟨(hwix (some code)).1, hdisp1, hdisp2, (hwix (some code)).2,
      searchAncestors_none_iff⟩
  · subst hr
    exact ⟨(hwix none).1, hdisp1, hdisp2, (hwix none).2,
      searchAncestors_none_iff⟩

/-- Yaml-mode configuration with empty `-input`, for the C3 witness. -/
def cfgYaml : Config :=
  { sampleCfg with databaseFormat := DatabaseFormatTy.yaml, input := "" }

/-- Witness for C3: a concrete yaml-mode run with an empty `-input` and
a failing directory search requests the modelled directory search and
aborts with exit code 1 before any unit is processed. -/
theorem yaml_load_dispatch_witness :
    (runWithIndex cfgYaml sampleEnv none).dbRequest =
      some (dbRequestFor cfgYaml sampleEnv) ∧
    (runWithIndex cfgYaml sampleEnv none).exitCode = 1 ∧
    (runWithIndex cfgYaml sampleEnv none).toolRan = false := by
  have hmain := yaml_load_dispatch cfgYaml sampleEnv
    (runWithIndex cfgYaml sampleEnv none) rfl rfl (by decide)
  have hfail := hmain.2.2.2.1 "no yaml db found" rfl
  exact ⟨hmain.1, hfail.1, hfail.2.1⟩

/-- Error-status test for an `Except` value, used to phrase the exit
code policy. -/
def exceptIsError {α : Type} : Except String α → Bool
  | Except.error _ => true
  | Except.ok _ => false

theorem exit_code_runTool (cfg : Config) (env : Env) (c : Option String)
    (bks : List SymbolIndexBackend) (req : Option DbRequest)
    (hA : ¬(cfg.stdinMode = true ∧ exceptIsError env.stdinResult = true))
    (hB : ¬(req ≠ none ∧
      exceptIsError (loadDb env (dbRequestFor cfg env)) = true)) :
    ((runTool cfg env c bks req).exitCode = 0 ∨
      (runTool cfg env c bks req).exitCode = 1) ∧
    ((runTool cfg env c bks req).exitCode = 1 ↔
      ((cfg.stdinMode = true ∧ exceptIsError env.stdinResult = true) ∨
       ((runTool cfg env c bks req).dbRequest ≠ none ∧
         exceptIsError (loadDb env (dbRequestFor cfg env)) = true) ∨
       ((runTool cfg env c bks req).toolRan = true ∧ env.toolExit ≠ 0) ∨
       ((runTool cfg env c bks req).editApplied = true ∧
         cfg.stdinMode = false ∧ env.overwriteFails = true))) := by
  rcases runTool_cases cfg env c bks req with
    ⟨ht, hr⟩ | ⟨ht, hsm, hr⟩ | ⟨ht, hsm, hr⟩
  · rw [hr]
    exact ⟨Or.inr rfl,
      iff_of_true rfl (Or.inr (Or.inr (Or.inl ⟨rfl, ht⟩)))⟩
  · rw [hr]
    refine ⟨Or.inl rfl, iff_of_false (by simp) ?_⟩
    rintro (hA2 | hB2 | ⟨_, hC2⟩ | ⟨_, hD2, _⟩)
    · exact hA hA2
    · exact hB hB2
    · exact hC2 ht
    · rw [hsm] at hD2
      exact absurd hD2 (by simp)
  · rw [hr]
    by_cases hov : env.overwriteFails = true
    · have hexit : (if env.overwriteFails = true then 1 else 0) = 1 :=
        if_pos hov
      rw [hexit]
      exact ⟨Or.inr rfl,
        iff_of_true rfl (Or.inr (Or.inr (Or.inr ⟨rfl, hsm, hov⟩)))⟩
    · have hexit : (if env.overwriteFails = true then 1 else 0) = 0 :=
        if_neg hov
      rw [hexit]
      refine ⟨Or.inl rfl, iff_of_false (by simp) ?_⟩
      rintro (hA2 | hB2 | ⟨_, hC2⟩ | ⟨_, _, hD2⟩)
      · exact hA hA2
      · exact hB hB2
      · exact hC2 ht
      · exact hov hD2

theorem exit_code_runWithIndex (cfg : Config) (env : Env) (c : Option String)
    (hA : ¬(cfg.stdinMode = true ∧ exceptIsError env.stdinResult = true)) :
    ((runWithIndex cfg env c).exitCode = 0 ∨
      (runWithIndex cfg env c).exitCode = 1) ∧
    ((runWithIndex cfg env c).exitCode = 1 ↔
      ((cfg.stdinMode = true ∧ exceptIsError env.stdinResult = true) ∨
       ((runWithIndex cfg env c).dbRequest ≠ none ∧
         exceptIsError (loadDb env (dbRequestFor cfg env)) = true) ∨
       ((runWithIndex cfg env c).toolRan = true ∧ env.toolExit ≠ 0) ∨
       ((runWithIndex cfg env c).editApplied = true ∧
         cfg.stdinMode = false ∧ env.overwriteFails = true))) := by
  rcases runWithIndex_cases cfg env c with
    ⟨hdb, hr⟩ | ⟨msg, hdb, hload, hr⟩ | ⟨syms, hdb, hload, hr⟩
  · rw [hr]
    apply exit_code_runTool cfg env c _ none hA
    simp
  · rw [hr]
    refine ⟨Or.inr rfl, iff_of_true rfl (Or.inr (Or.inl ⟨by simp, ?_⟩))⟩
    rw [hload]
    rfl
  · rw [hr]
    apply exit_code_runTool cfg env c _ (some (dbRequestFor cfg env)) hA
    rw [hload]
    simp [exceptIsError]

/-- C4: the process exit code of every (non-asserting) run is 0 or 1,
and it is 1 exactly on the failure paths — a failing stdin read, a
failing database load, a failing tool run (detection phase), or a
failing on-disk rewrite during edit application — and 0 on every
success path. -/
theorem exit_code_policy (cfg : Config) (env : Env) (r : RunResult)
    (h : includeFixerMain cfg env = Except.ok r) :
    (r.exitCode = 0 ∨ r.exitCode = 1) ∧
    (r.exitCode = 1 ↔
      ((cfg.stdinMode = true ∧ exceptIsError env.stdinResult = true) ∨
       (r.dbRequest ≠ none ∧
         exceptIsError (loadDb env (dbRequestFor cfg env)) = true) ∨
       (r.toolRan = true ∧ env.toolExit ≠ 0) ∨
       (r.editApplied = true ∧ cfg.stdinMode = false ∧
         env.overwriteFails = true))) := by
  rcases includeFixerMain_cases cfg env r h with
    ⟨msg, hs, h1, he, hr⟩ | ⟨code, hs, h1, he, hlen, hr⟩ |
    ⟨code, hs, h1, he, hlen, hr⟩ | ⟨hs, hr⟩
  · subst hr
    refine ⟨Or.inr rfl, iff_of_true rfl (Or.inl ⟨hs, ?_⟩)⟩
    rw [he]
    rfl
  · subst hr
    refine ⟨Or.inl rfl, iff_of_false (by simp) ?_⟩
    rintro (⟨_, hA2⟩ | ⟨hB2, _⟩ | ⟨hC2, _⟩ | ⟨hD2, _, _⟩)
    · rw [he] at hA2
      exact absurd hA2 (by simp [exceptIsError])
    · exact hB2 rfl
    · exact absurd hC2 (by simp)
    · exact absurd hD2 (by simp)
  · subst hr
    refine exit_code_runWithIndex cfg env (some code) ?_
    rintro ⟨_, hA2⟩
    rw [he] at hA2
    exact absurd hA2 (by simp [exceptIsError])
  · subst hr
    refine exit_code_runWithIndex cfg env none ?_
    rintro ⟨hs2, _⟩
    rw [hs] at hs2
    exact absurd hs2 (by simp)

/-- Witness for C4 at a concrete all-success fixed-mode run. -/
theorem exit_code_policy_witness :
    ((runWithIndex sampleCfg sampleEnv none).exitCode = 0 ∨
      (runWithIndex sampleCfg sampleEnv none).exitCode = 1) ∧
    ((runWithIndex sampleCfg sampleEnv none).exitCode = 1 ↔
      ((sampleCfg.stdinMode = true ∧
         exceptIsError sampleEnv.stdinResult = true) ∨
       ((runWithIndex sampleCfg sampleEnv none).dbRequest ≠ none ∧
         exceptIsError (loadDb sampleEnv (dbRequestFor sampleCfg sampleEnv)) =
           true) ∨
       ((runWithIndex sampleCfg sampleEnv none).toolRan = true ∧
         sampleEnv.toolExit ≠ 0) ∨
       ((runWithIndex sampleCfg sampleEnv none).editApplied = true ∧
         sampleCfg.stdinMode = false ∧ sampleEnv.overwriteFails = true))) :=
  exit_code_policy sampleCfg sampleEnv
    (runWithIndex sampleCfg sampleEnv none) rfl
